import Mathlib

/-!
Verification development for the Zillow scraper page handler
(src/main.js, src/page-handler.js).

The Lean definitions below are shallow embeddings of the JavaScript
functions of `PageHandler`.  JavaScript numbers are modelled as `Nat`
where the source only ever holds non-negative integers, and as `ℚ`
where the source performs non-integral division (the pagination page
count).  External collaborators (the Apify request queue, Puppeteer
pages, the session pool, the string-comparison library similarity
score) are abstracted as parameters; everything that the repository
itself computes is translated from the source.

Two pieces of the repository are referenced by src/ but are not part
of the provided sources (src/functions.js and src/initialization.js);
the definitions modelling them carry a doc comment starting with
`Modelled from the spec:`.
-/

/-! ## Pagination planner (`_tryEnqueuePaginationPages`, page-handler.js 660-696) -/

/-- Embedding of `_tryEnqueuePaginationPages`.  The source computes
`pagesCount = Math.min(totalCount / LISTINGS_PER_PAGE + 1, PAGES_LIMIT)`
with `LISTINGS_PER_PAGE = 40` in IEEE doubles (exact here for the small
integers involved, so `ℚ` is a faithful model) and then runs
`for (let i = 2; i <= pagesCount; i++)` enqueueing one pagination job
per iteration.  The result is the list of enqueued page numbers, i.e.
the integers `i` with `2 ≤ i ≤ pagesCount`, in increasing order.
`PAGES_LIMIT` comes from src/constants.js which is not among the
sources, so it is a parameter (`pagesLimit`).  The guard mirrors
`totalCount > 0 && zpids.size < this.globalContext.maxZpidsFound`. -/
def tryEnqueuePaginationPages (pagesLimit zpidsSize maxZpidsFound totalCount : Nat) :
    List Nat :=
  if 0 < totalCount ∧ zpidsSize < maxZpidsFound then
    (List.range (pagesLimit + 1)).filter
      (fun i => 2 ≤ i ∧ (i : ℚ) ≤ min ((totalCount : ℚ) / 40 + 1) (pagesLimit : ℚ))
  else []

/-- The page list asserted by the claim:
`pagesCount = min(ceil(totalCount / 40) + 1, pagesLimit)` and jobs for
pages `2 .. pagesCount`.  (`(totalCount + 39) / 40` is `⌈totalCount/40⌉`
in natural-number arithmetic.)  This definition follows the words of
the spec, for comparison with the source embedding above. -/
def claimedPaginationPages (pagesLimit totalCount : Nat) : List Nat :=
  (List.range (pagesLimit + 1)).filter
    (fun i => 2 ≤ i ∧ i ≤ min ((totalCount + 39) / 40 + 1) pagesLimit)

/-! ## Map-split planner (`_tryEnqueueMapSplits`, `_enqueueMapSplits`,
page-handler.js 631-651, 703-730) -/

structure MapBounds where
  south : ℚ
  west : ℚ
  north : ℚ
  east : ℚ
  deriving DecidableEq, Repr

structure MapQueryState where
  mapBounds : MapBounds
  mapZoom : Nat
  deriving DecidableEq, Repr

/-- Modelled from the spec: `splitQueryState` lives in src/functions.js,
which is not among the provided sources.  Per spec section 4.3 the
reference behavior "quarters the rectangle and increases zoom",
producing sub-viewports that collectively cover the original area. -/
def splitQueryState (qs : MapQueryState) : List MapQueryState :=
  let midNS := (qs.mapBounds.north + qs.mapBounds.south) / 2
  let midEW := (qs.mapBounds.east + qs.mapBounds.west) / 2
  let z := qs.mapZoom + 1
  [ ⟨⟨midNS, qs.mapBounds.west, qs.mapBounds.north, midEW⟩, z⟩,
    ⟨⟨midNS, midEW, qs.mapBounds.north, qs.mapBounds.east⟩, z⟩,
    ⟨⟨qs.mapBounds.south, qs.mapBounds.west, midNS, midEW⟩, z⟩,
    ⟨⟨qs.mapBounds.south, midEW, midNS, qs.mapBounds.east⟩, z⟩ ]

structure SplitJob where
  qs : MapQueryState
  splitCount : Nat
  deriving DecidableEq, Repr

/-- Embedding of `_enqueueMapSplits`: one request per sub-viewport,
each carrying the new `splitCount`; the loop breaks immediately when
`isOverItems()` holds (the dedup store does not change while the jobs
are being enqueued, so the check is constant over the loop). -/
def enqueueMapSplits (overItems : Bool) (splits : List MapQueryState)
    (splitCount : Nat) : List SplitJob :=
  if overItems then [] else splits.map (fun s => ⟨s, splitCount⟩)

/-- Embedding of `_tryEnqueueMapSplits`.  `splitThresholdInput = 0`
models a falsy `input.splitThreshold`, in which case the source falls
back to the constant `RESULTS_LIMIT` (src/constants.js, not among the
sources, hence the parameter `resultsLimit`). -/
def tryEnqueueMapSplits (overItems : Bool)
    (splitThresholdInput resultsLimit : Nat) (maxLevelInput : Option Nat)
    (splitCountUserData : Option Nat) (qs : MapQueryState) (totalCount : Nat) :
    List SplitJob :=
  let mapSplittingThreshold := if splitThresholdInput = 0 then resultsLimit else splitThresholdInput
  if mapSplittingThreshold ≤ totalCount then
    let currentSplitCount := splitCountUserData.getD 0
    let maxLevel := maxLevelInput.getD 5
    if maxLevel ≤ currentSplitCount then
      []
    else
      enqueueMapSplits overItems (splitQueryState qs) (currentSplitCount + 1)
  else []

/-! ## `maxZpidsFound` bookkeeping (main.js 49-53, page-handler.js 48-65
and 463-483) -/

/-- The run-wide context created once in main.js: its `maxZpidsFound`
field is a plain number initialised to 0. -/
structure GlobalCtx where
  maxZpidsFound : Nat
  deriving DecidableEq, Repr

/-- The object the `PageHandler` constructor builds for itself:
`this.globalContext = { zpids, input, maxZpidsFound, crawler }` copies
the number `maxZpidsFound` by value into a fresh object (only the
fields relevant to the claims are modelled). -/
structure HandlerCtx where
  maxZpidsFound : Nat
  deriving DecidableEq, Repr

/-- Embedding of the `PageHandler` constructor projection of
`maxZpidsFound`: the handler receives the value the shared context
holds at construction time. -/
def mkPageHandler (g : GlobalCtx) : HandlerCtx :=
  { maxZpidsFound := g.maxZpidsFound }

/-- One category extraction (`extractQueryStates` output entry); only
its `totalCount` participates in the `maxZpidsFound` update. -/
structure CategoryExtract where
  totalCount : Nat
  deriving DecidableEq, Repr

/-- Embedding of the `maxZpidsFound` part of
`_extractQueryStatesForCurrentPage` (page-handler.js 463-483): it sums
`totalCount` over the extracted states and then unconditionally runs
`this.globalContext.maxZpidsFound = Math.max(sumTotalCount, this.globalContext.maxZpidsFound)`.
The page number (`request.userData.pageNumber`, defaulting to 1) and
the split level (`request.userData.splitCount`) are taken as arguments
to show the update does not consult them.  Returns the updated handler
context and `sumTotalCount`. -/
def extractQueryStatesForCurrentPage (h : HandlerCtx)
    (pageNumberUserData splitCountUserData : Option Nat)
    (states : List CategoryExtract) : HandlerCtx × Nat :=
  let pageNumber := pageNumberUserData.getD 1
  let sumTotalCount := states.foldl (fun out c => out + c.totalCount) 0
  have _ := pageNumber
  have _ := splitCountUserData
  ({ h with maxZpidsFound := max sumTotalCount h.maxZpidsFound }, sumTotalCount)

/-! ## Dedup store and per-entity extraction (`processZpid`,
`isOverItems`, page-handler.js 267-345) -/

/-- The run-scoped shared state: the dedup set of zpid strings
(a JS `Set`, modelled as a duplicate-free insertion-ordered list) and
the `input.maxItems` cap, where `0` models an absent/falsy cap exactly
as the `typeof input.maxItems === 'number' && input.maxItems > 0`
guard treats it. -/
structure RunState where
  zpids : List String
  maxItems : Nat
  deriving DecidableEq, Repr

/-- Embedding of `isOverItems` (page-handler.js 340-345) with
`extra = 0`, its only call pattern inside the handler. -/
def RunState.isOverItems (st : RunState) : Bool :=
  0 < st.maxItems && st.maxItems ≤ st.zpids.length

/-- Set-insertion into the dedup store (`zpids.add` semantics of a JS
`Set`). -/
def RunState.insertZpid (st : RunState) (z : String) : RunState :=
  if st.zpids.contains z then st else { st with zpids := st.zpids ++ [z] }

/-- Approximation of the JS numeric-string test `+zpid == zpid` for
string inputs: non-empty and all digits.  (The handler only ever feeds
it zpids scraped from result payloads; exotic coercion cases such as
leading blanks are irrelevant to the claims.) -/
def isNumericZpid (s : String) : Bool :=
  s ≠ "" && s.toList.all Char.isDigit

/-- The fallback detail request built in the catch block of
`processZpid` (page-handler.js 322-329). -/
structure FallbackJob where
  url : String
  zpidUserData : String
  uniqueKey : String
  deriving DecidableEq, Repr

/-- Everything observable about one `processZpid` call: the updated
dedup store, whether `queryZpid` was invoked, whether a payload was
forwarded to the output sink, the fallback detail job (if enqueued),
whether `this.anyErrors` was set, whether `session.markBad()` ran, and
whether the 100ms pacing sleep in the `finally` block ran. -/
structure ZpidAttempt where
  state : RunState
  queried : Bool
  outputForwarded : Bool
  fallback : Option FallbackJob
  anyErrorsSet : Bool
  markedBad : Bool
  waited : Bool
  deriving DecidableEq, Repr

/-- Embedding of `processZpid` (page-handler.js 267-338).  The session
usability flag and the success of `queryZpid` plus the output-function
call are external collaborators, passed as parameters.  Control flow,
path by path:
* over-items early return (line 271, before the try block: no sleep);
* `!zpid` throws `notZpid`, caught and fast-skipped with `noWait`;
* non-numeric zpid likewise;
* zpid already in the store: plain return with `noWait`;
* unusable session throws; the catch block treats the error like any
  other failure (its message is in neither fast-skip message), so it
  enqueues the fallback job, sets `anyErrors` and calls
  `session.markBad()`; the error is swallowed (the catch never
  rethrows);
* otherwise `queryZpid` runs; on success the payload goes to the
  output sink, which records the zpid in the dedup store
  (the insertion itself is performed by `extendOutputFunction` from
  src/initialization.js — not among the sources — Modelled from the
  spec: the DedupStore grows monotonically and an extracted id is
  added to it);
* a failing query is caught and handled by the same fallback branch.
The catch block re-checks `isOverItems()` before anything else, but
every throwing path leaves the store unchanged and the entry check
already ruled `isOverItems()` out, so that branch is unreachable and
is not modelled.  The fallback `uniqueKey` is `zpid || detailUrl` and
its url is `new URL(detailUrl || '/homedetails/{zpid}_zpid/',
'https://www.zillow.com')`. -/
def processZpid (st : RunState) (sessionUsable : Bool)
    (queryOk : String → Bool) (zpid detailUrl : String) : ZpidAttempt :=
  if st.isOverItems then
    ⟨st, false, false, none, false, false, false⟩
  else if zpid = "" then
    ⟨st, false, false, none, false, false, false⟩
  else if ¬ isNumericZpid zpid then
    ⟨st, false, false, none, false, false, false⟩
  else if st.zpids.contains zpid then
    ⟨st, false, false, none, false, false, false⟩
  else if ¬ sessionUsable then
    ⟨st, false, false,
      some ⟨if detailUrl ≠ "" then detailUrl
            else "https://www.zillow.com/homedetails/" ++ zpid ++ "_zpid/",
            zpid,
            if zpid ≠ "" then zpid else detailUrl⟩,
      true, true, true⟩
  else if queryOk zpid then
    ⟨st.insertZpid zpid, true, true, none, false, false, true⟩
  else
    ⟨st, true, false,
      some ⟨if detailUrl ≠ "" then detailUrl
            else "https://www.zillow.com/homedetails/" ++ zpid ++ "_zpid/",
            zpid,
            if zpid ≠ "" then zpid else detailUrl⟩,
      true, true, true⟩

/-- One discovered entity as destructured by the result loops
(`{ zpid, detailUrl }` plus the `address` the matcher reads). -/
structure ResultRecord where
  zpid : String
  address : String
  detailUrl : String
  deriving DecidableEq, Repr

/-- Accumulated observations of a batch run over a result list. -/
structure BatchOutcome where
  state : RunState
  invoked : List String
  queriedZpids : List String
  deriving DecidableEq, Repr

/-- Embedding of `_extractZpidsFromResults` (page-handler.js 737-769):
iterate the records, call `processZpid` for every truthy zpid, break
when over items.  `invoked` records the zpids for which `processZpid`
ran; `queriedZpids` the zpids for which it issued `queryZpid`.  (The
10-second progress interval is a logging side channel and is not
modelled.) -/
def extractZpidsFromResults (sessionUsable : Bool) (queryOk : String → Bool) :
    RunState → List ResultRecord → BatchOutcome
  | st, [] => ⟨st, [], []⟩
  | st, r :: rest =>
    if r.zpid ≠ "" then
      let a := processZpid st sessionUsable queryOk r.zpid r.detailUrl
      if a.state.isOverItems then
        ⟨a.state, [r.zpid], if a.queried then [r.zpid] else []⟩
      else
        let b := extractZpidsFromResults sessionUsable queryOk a.state rest
        ⟨b.state, r.zpid :: b.invoked,
          (if a.queried then [r.zpid] else []) ++ b.queriedZpids⟩
    else
      extractZpidsFromResults sessionUsable queryOk st rest

/-! ## Address matcher (`_processExtractedQueryStates`, page-handler.js
499-537, and the string-comparison library's `cosine.sortMatch`) -/

/-- One entry of the array `cos.sortMatch(address, su)` returns: the
candidate string, its similarity rating and its index in `su`. -/
structure Comparison where
  member : String
  rating : ℚ
  index : Nat
  deriving DecidableEq, Repr

/-- The candidate array before sorting: each target string paired with
its similarity rating against the result address and its original
index.  The similarity function itself (token-based cosine, an
external library) is a parameter. -/
def ratedCandidates (rate : String → String → ℚ) (address : String)
    (su : List String) : List Comparison :=
  su.enum.map (fun p => ⟨p.2, rate address p.2, p.1⟩)

/-- Stable insertion into a rating-ascending list: the new element goes
after all elements of equal rating, matching the stable ascending
`Array.prototype.sort((a, b) => a.rating - b.rating)` of ES2019. -/
def insertAsc (c : Comparison) : List Comparison → List Comparison
  | [] => [c]
  | x :: xs => if c.rating < x.rating then c :: x :: xs else x :: insertAsc c xs

/-- Stable sort by ascending rating (left fold of stable insertions). -/
def sortByRating (l : List Comparison) : List Comparison :=
  l.foldl (fun acc c => insertAsc c acc) []

/-- Model of `cos.sortMatch(address, su)`: rated candidates, stably
sorted by ascending rating. -/
def sortMatch (rate : String → String → ℚ) (address : String)
    (su : List String) : List Comparison :=
  sortByRating (ratedCandidates rate address su)

/-- Split a character list on a separator character, JS
`String.prototype.split` semantics on a one-character separator: the
empty input yields one empty field, a trailing separator yields a
trailing empty field. -/
def splitOnChar (sep : Char) : List Char → List (List Char)
  | [] => [[]]
  | c :: rest =>
    match splitOnChar sep rest with
    | [] => [[]]
    | t :: ts => if c = sep then [] :: t :: ts else (c :: t) :: ts

/-- First whitespace-delimited token: the JS idiom is split on the
blank character and take element 0. -/
def firstToken (s : String) : String :=
  String.mk ((splitOnChar ' ' s.toList).headD [])

/-- The filter predicate of page-handler.js 513-520: rating at least
0.9 (written `mkRat 9 10`, the literal rational nine tenths) and equal
leading street-number token. -/
def qualifies (address : String) (c : Comparison) : Bool :=
  mkRat 9 10 ≤ c.rating && firstToken address == firstToken c.member

/-- The survivors (`matchedComparisons`) for one result. -/
def matchedComparisons (rate : String → String → ℚ) (address : String)
    (su : List String) : List Comparison :=
  (sortMatch rate address su).filter (qualifies address)

/-- The reduce of page-handler.js 523-525:
`(prev, current) => prev.rating > current.rating ? prev : current`. -/
def pickHigher (p c : Comparison) : Comparison :=
  if c.rating < p.rating then p else c

/-- The match stored on a result (`results[i].match`), `none` when
`matchedComparisons` is empty (in which case the source skips the
result instead of reducing). -/
def selectMatch (rate : String → String → ℚ) (address : String)
    (su : List String) : Option Comparison :=
  match matchedComparisons rate address su with
  | [] => none
  | x :: xs => some (xs.foldl pickHigher x)

/-- One step of the single-pass selection stated by the amended claim:
a qualifying candidate replaces the current best exactly when its
rating is greater than or equal to the best rating so far — so the
maximal-rating qualifying candidate wins and rating ties go to the
candidate encountered LAST in iteration order. -/
def lastTieStep (address : String) : Option Comparison → Comparison → Option Comparison
  | none, c => if qualifies address c then some c else none
  | some p, c =>
    if qualifies address c then
      (if c.rating < p.rating then some p else some c)
    else some p

/-- Fused single-pass selection over the unsorted candidates, used to
state what `selectMatch` computes: maximal rating among qualifying
candidates, ties to the LAST encountered. -/
def specSelectLastTie (rate : String → String → ℚ) (address : String)
    (su : List String) : Option Comparison :=
  (ratedCandidates rate address su).foldl (lastTieStep address) none

/-- One step of the selection rule asserted by the claim: a qualifying
candidate replaces the current best only when its rating is strictly
greater, so ties go to the candidate encountered FIRST. -/
def firstTieStep (address : String) : Option Comparison → Comparison → Option Comparison
  | none, c => if qualifies address c then some c else none
  | some p, c =>
    if qualifies address c then
      (if p.rating < c.rating then some c else some p)
    else some p

/-- The selection asserted by the claim, following its words: among
qualifying candidates take the maximum rating, ties broken in favor of
the candidate encountered FIRST in iteration order. -/
def claimSelectFirstTie (rate : String → String → ℚ) (address : String)
    (su : List String) : Option Comparison :=
  (ratedCandidates rate address su).foldl (firstTieStep address) none

/-- Proof scaffolding: one step of the selection fold over an optional
current best — the reduce of page-handler.js 523-525 fused with the
qualification filter. -/
def pickStep (q : Comparison → Bool) : Option Comparison → Comparison → Option Comparison
  | none, c => if q c then some c else none
  | some p, c => if q c then (if c.rating < p.rating then some p else some c) else some p

/-- Proof scaffolding: the same step over a mandatory current best. -/
def pickG (q : Comparison → Bool) (a c : Comparison) : Comparison :=
  if q c then (if c.rating < a.rating then a else c) else a

/-- Ascending-by-rating sortedness. -/
def ratingSorted (l : List Comparison) : Prop :=
  l.Pairwise (fun u v => u.rating ≤ v.rating)

/-! ## Page-level composition (`_processExtractedQueryStates`,
`_mergeListResultsMapResults`, `_validateQueryStatesResults`,
page-handler.js 492-617) -/

/-- One element of the `queryStates` array: its `searchState` result
collections (category 1 and 2, map and list) and the query state `qs`
used for follow-up jobs. -/
structure QueryStateEntry where
  qs : MapQueryState
  cat1Map : List ResultRecord
  cat1List : List ResultRecord
  cat2Map : List ResultRecord
  cat2List : List ResultRecord
  deriving DecidableEq, Repr

/-- Embedding of `_mergeListResultsMapResults` (page-handler.js
588-595): per state, category-1 map results, then category-1 list
results, then category-2 map results, then category-2 list results,
flat-mapped over the states. -/
def mergeListResultsMapResults (queryStates : List QueryStateEntry) :
    List ResultRecord :=
  (queryStates.map
    (fun s => s.cat1Map ++ s.cat1List ++ s.cat2Map ++ s.cat2List)).flatten

/-- The target string derived from a start url (page-handler.js
501-503): split the url on slashes, take the last segment, and turn
every dash into a blank (the source's global single-character regex
replace). -/
def deriveTarget (url : String) : String :=
  String.mk (((splitOnChar '/' url.toList).getLastD []).map
    (fun c => if c = '-' then ' ' else c))

/-- A result that survived address matching, together with its stored
match and the base url looked up at `cleanStartUrls[match.index]`
(page-handler.js 521-531). -/
structure MatchedResult where
  result : ResultRecord
  best : Comparison
  baseUrl : String
  deriving DecidableEq, Repr

/-- The `filteredResults` array: every result whose match survived,
in result order, each carrying its selected match. -/
def computeFilteredResults (rate : String → String → ℚ)
    (results : List ResultRecord) (cleanStartUrls : List String) :
    List MatchedResult :=
  let su := cleanStartUrls.map deriveTarget
  results.filterMap (fun r =>
    (selectMatch rate r.address su).map
      (fun c => ⟨r, c, (cleanStartUrls.getD c.index "")⟩))

/-- The runtime errors page-handler.js can raise in this phase. -/
inductive PageError
  /-- `TypeError: Reduce of empty array with no initial value`, raised
  by `filteredResults?.reduce(...)` (page-handler.js 535) when
  `filteredResults` is empty: `reduce` with no initial value throws on
  an empty array, and the optional chaining on the receiver does not
  guard against that. -/
  | typeErrorEmptyReduce
  /-- `No map results but result count is N` thrown by
  `_validateQueryStatesResults`. -/
  | noMapResults (totalCount : Nat)
  deriving DecidableEq, Repr

/-- The page-level reduce of page-handler.js 534-537: collapse
`filteredResults` to the single entry of highest match rating (ties to
the later entry); throws the empty-reduce `TypeError` when there is
nothing to reduce. -/
def reduceBestMatched : List MatchedResult → Except PageError MatchedResult
  | [] => .error .typeErrorEmptyReduce
  | x :: xs =>
    .ok (xs.foldl (fun p c => if c.best.rating < p.best.rating then p else c) x)

/-- Outcome of `_validateQueryStatesResults` (page-handler.js
603-617): whether `session.retire()` ran and either an error or the
returned value (`some false` models `return false`, `none` models the
implicit `undefined`). -/
structure ValidateOutcome where
  retired : Bool
  res : Except PageError (Option Bool)
  deriving Repr

/-- Embedding of `_validateQueryStatesResults`; the first argument
models `!results?.length` via the length itself. -/
def validateQueryStatesResults (resultsLength totalCount : Nat) :
    ValidateOutcome :=
  if resultsLength = 0 then
    if 0 < totalCount then ⟨true, .error (.noMapResults totalCount)⟩
    else ⟨false, .ok (some false)⟩
  else ⟨false, .ok none⟩

/-- Accumulator of the `for (const { qs } of queryStates)` loop
(page-handler.js 561-576). -/
structure LoopOutcome where
  state : RunState
  invoked : List String
  queriedZpids : List String
  splitJobs : List SplitJob
  paginationPages : List Nat
  deriving DecidableEq, Repr

/-- The per-`qs` loop body sequence of `_processExtractedQueryStates`:
stop as soon as `zpids.size >= maxZpidsFound`; on a first page run the
split planner and the pagination planner; then extract from the
(already reduced) `results`. -/
def qsLoop (sessionUsable : Bool) (queryOk : String → Bool)
    (maxZpidsFound currentPage : Nat)
    (splitThresholdInput resultsLimit pagesLimit : Nat)
    (maxLevelInput splitCountUserData : Option Nat)
    (extractionResults : List ResultRecord) (totalCount : Nat) :
    List QueryStateEntry → RunState → LoopOutcome
  | [], st => ⟨st, [], [], [], []⟩
  | e :: rest, st =>
    if maxZpidsFound ≤ st.zpids.length then ⟨st, [], [], [], []⟩
    else
      let sj := if currentPage = 1 then
          tryEnqueueMapSplits st.isOverItems splitThresholdInput resultsLimit
            maxLevelInput splitCountUserData e.qs totalCount
        else []
      let pp := if currentPage = 1 then
          tryEnqueuePaginationPages pagesLimit st.zpids.length maxZpidsFound totalCount
        else []
      let b := extractZpidsFromResults sessionUsable queryOk st extractionResults
      let tail := qsLoop sessionUsable queryOk maxZpidsFound currentPage
        splitThresholdInput resultsLimit pagesLimit maxLevelInput
        splitCountUserData extractionResults totalCount rest b.state
      ⟨tail.state, b.invoked ++ tail.invoked,
        b.queriedZpids ++ tail.queriedZpids,
        sj ++ tail.splitJobs, pp ++ tail.paginationPages⟩

/-- Everything observable about one `_processExtractedQueryStates`
pass. -/
structure PageOutcome where
  error : Option PageError
  sessionRetired : Bool
  state : RunState
  invoked : List String
  queriedZpids : List String
  splitJobs : List SplitJob
  paginationPages : List Nat
  deriving DecidableEq, Repr

/-- Embedding of `_processExtractedQueryStates` (page-handler.js
492-581).  Stages, in source order: merge the result collections;
derive the target strings from `cleanStartUrls`; filter results by
address match; reduce the filtered results to the single best match
(replacing `results` with that singleton) — this reduce throws on an
empty array; report to the external sink (fire-and-forget `axios.post`
calls, not awaited, hence no observable effect here); call
`_validateQueryStatesResults(results, queryStates, results.length)` —
note the third argument is the length of the reduced singleton, not
the reported total count; finally run the `qs` loop.  `totalCount` is
the summed reported total passed in by the caller. -/
def processExtractedQueryStates (rate : String → String → ℚ)
    (st : RunState) (sessionUsable : Bool) (queryOk : String → Bool)
    (maxZpidsFound : Nat) (pageNumberUserData : Option Nat)
    (splitThresholdInput resultsLimit pagesLimit : Nat)
    (maxLevelInput splitCountUserData : Option Nat)
    (queryStates : List QueryStateEntry) (totalCount : Nat)
    (cleanStartUrls : List String) : PageOutcome :=
  let currentPage := pageNumberUserData.getD 1
  let results := mergeListResultsMapResults queryStates
  let filteredResults := computeFilteredResults rate results cleanStartUrls
  match reduceBestMatched filteredResults with
  | .error e => ⟨some e, false, st, [], [], [], []⟩
  | .ok bestMatched =>
    let reduced := [bestMatched]
    let v := validateQueryStatesResults reduced.length reduced.length
    match v.res with
    | .error e => ⟨some e, v.retired, st, [], [], [], []⟩
    | .ok (some false) => ⟨none, v.retired, st, [], [], [], []⟩
    | _ =>
      let lo := qsLoop sessionUsable queryOk maxZpidsFound currentPage
        splitThresholdInput resultsLimit pagesLimit maxLevelInput
        splitCountUserData (reduced.map (·.result)) totalCount queryStates st
      ⟨none, v.retired, lo.state, lo.invoked, lo.queriedZpids,
        lo.splitJobs, lo.paginationPages⟩

/-! ## Concrete fixtures used by the counterexamples and witnesses -/

/-- A similarity function for the concrete instances: rating 1 for
identical strings, 0 otherwise.  The real token-based cosine
similarity also rates two identical strings 1 and two strings sharing
no token 0, so on the fixture inputs below this agrees with the
library. -/
def rateEq (a b : String) : ℚ := if a = b then 1 else 0

/-- Fixture result that matches the fixture start url. -/
def resMain : ResultRecord := ⟨"111", "100 main st", "/homedetails/111_zpid/"⟩

/-- Fixture result that matches no start url. -/
def resOak : ResultRecord := ⟨"222", "222 oak ave", "/homedetails/222_zpid/"⟩

/-- Fixture viewport. -/
def qsFix : MapQueryState := ⟨⟨0, 0, 1, 1⟩, 10⟩

/-! ## Helper lemmas -/

theorem isOverItems_iff (st : RunState) :
    st.isOverItems = true ↔ 0 < st.maxItems ∧ st.maxItems ≤ st.zpids.length := by
  simp [RunState.isOverItems]

theorem processZpid_over (st : RunState) (su : Bool) (q : String → Bool)
    (z d : String) (hover : st.isOverItems = true) :
    processZpid st su q z d = ⟨st, false, false, none, false, false, false⟩ := by
  simp [processZpid, hover]

theorem batch_queried_nil (su : Bool) (q : String → Bool) (st : RunState)
    (hover : st.isOverItems = true) (results : List ResultRecord) :
    (extractZpidsFromResults su q st results).queriedZpids = [] := by
  induction results with
  | nil => rfl
  | cons r rest ih =>
    by_cases hz : r.zpid = ""
    · simp [extractZpidsFromResults, hz, ih]
    · simp [extractZpidsFromResults, hz, processZpid_over st su q r.zpid r.detailUrl hover,
        hover]

theorem insertZpid_length_le (st : RunState) (z : String) :
    st.zpids.length ≤ (st.insertZpid z).zpids.length := by
  unfold RunState.insertZpid
  split_ifs <;> simp

theorem pagesCount_cast_le (i t pl : Nat) :
    ((i : ℚ) ≤ min ((t : ℚ) / 40 + 1) (pl : ℚ)) ↔ i ≤ min (t / 40 + 1) pl := by
  have hfloor : ⌊(t : ℚ) / 40 + 1⌋₊ = t / 40 + 1 := by
    rw [Nat.floor_add_one (by positivity)]
    congr 1
    rw [show (40 : ℚ) = ((40 : ℕ) : ℚ) by norm_num, Nat.floor_div_nat, Nat.floor_natCast]
  rw [le_min_iff, Nat.le_min]
  apply and_congr
  · rw [← hfloor, Nat.le_floor_iff (by positivity)]
  · exact_mod_cast Iff.rfl

/-- Membership characterisation of the enqueued pagination pages, in
natural-number arithmetic. -/
theorem mem_tryEnqueuePaginationPages
    (pagesLimit zpidsSize maxZpidsFound totalCount i : Nat) :
    i ∈ tryEnqueuePaginationPages pagesLimit zpidsSize maxZpidsFound totalCount ↔
      (0 < totalCount ∧ zpidsSize < maxZpidsFound) ∧
        2 ≤ i ∧ i ≤ min (totalCount / 40 + 1) pagesLimit := by
  unfold tryEnqueuePaginationPages
  by_cases hg : 0 < totalCount ∧ zpidsSize < maxZpidsFound
  · rw [if_pos hg, List.mem_filter, List.mem_range]
    simp only [decide_eq_true_eq, pagesCount_cast_le]
    constructor
    · rintro ⟨-, h2, h3⟩
      exact ⟨hg, h2, h3⟩
    · rintro ⟨-, h2, h3⟩
      have hpl : i ≤ pagesLimit := le_trans h3 (min_le_right _ _)
      exact ⟨by omega, h2, h3⟩
  · rw [if_neg hg]
    simp [hg]

theorem processZpid_fallback_key (st : RunState) (su : Bool) (q : String → Bool)
    (z d : String) (f : FallbackJob)
    (h : (processZpid st su q z d).fallback = some f) : f.uniqueKey = z := by
  unfold processZpid at h
  split_ifs at h <;> simp_all <;> subst h <;> rfl

theorem pickStep_some (q : Comparison → Bool) (a c : Comparison) :
    pickStep q (some a) c = some (pickG q a c) := by
  simp only [pickStep, pickG]
  split_ifs <;> rfl

theorem pickStep_none (q : Comparison → Bool) (c : Comparison) :
    pickStep q none c = if q c then some c else none := rfl

theorem pickG_rating_ge (q : Comparison → Bool) (e y : Comparison) :
    e.rating ≤ (pickG q e y).rating := by
  unfold pickG
  split_ifs with h1 h2
  · exact le_refl _
  · exact not_lt.mp h2
  · exact le_refl _

theorem foldl_fun_ext {α β : Type} (f g : β → α → β)
    (h : ∀ b a, f b a = g b a) :
    ∀ (l : List α) (b : β), l.foldl f b = l.foldl g b := by
  intro l
  induction l with
  | nil =>
    intro b
    rfl
  | cons x xs ih =>
    intro b
    rw [List.foldl_cons, List.foldl_cons, h, ih]

theorem pickG_neg (q : Comparison → Bool) (a c : Comparison) (h : ¬ q c) :
    pickG q a c = a := by
  simp [pickG, h]

theorem pickG_absorb (q : Comparison → Bool) (a c : Comparison)
    (h : c.rating < a.rating) : pickG q a c = a := by
  unfold pickG
  by_cases hq : q c
  · rw [if_pos hq, if_pos h]
  · rw [if_neg hq]

theorem le_pickG_rating (q : Comparison → Bool) (a y : Comparison) (hq : q y) :
    y.rating ≤ (pickG q a y).rating := by
  unfold pickG
  rw [if_pos hq]
  split_ifs with h
  · exact le_of_lt h
  · exact le_refl _

theorem foldl_pickStep_some (q : Comparison → Bool) (l : List Comparison)
    (a : Comparison) :
    l.foldl (pickStep q) (some a) = some (l.foldl (pickG q) a) := by
  induction l generalizing a with
  | nil => rfl
  | cons y ys ih =>
    rw [List.foldl_cons, List.foldl_cons, pickStep_some, ih]

theorem foldl_pickStep_mem (q : Comparison → Bool) (l : List Comparison)
    (o : Option Comparison) (p : Comparison)
    (h : l.foldl (pickStep q) o = some p) : p ∈ l ∨ o = some p := by
  induction l generalizing o with
  | nil => exact Or.inr h
  | cons y ys ih =>
    rw [List.foldl_cons] at h
    rcases ih _ h with hm | ho
    · exact Or.inl (List.mem_cons_of_mem _ hm)
    · cases o with
      | none =>
        simp only [pickStep] at ho
        split_ifs at ho
        all_goals first
          | exact Option.noConfusion ho
          | (injection ho with h1
             exact Or.inl (h1 ▸ List.mem_cons_self _ _))
      | some a =>
        simp only [pickStep] at ho
        split_ifs at ho
        all_goals first
          | exact Or.inr ho
          | (injection ho with h1
             exact Or.inl (h1 ▸ List.mem_cons_self _ _))

theorem foldl_pickG_all_lt (q : Comparison → Bool) (c : Comparison)
    (l : List Comparison) (hall : ∀ y ∈ l, c.rating < y.rating) :
    l.foldl (pickG q) c =
      (match l.foldl (pickStep q) none with | none => c | some p => p) := by
  induction l with
  | nil => rfl
  | cons y ys ih =>
    by_cases hq : q y
    · have hcy : c.rating < y.rating := hall y (List.mem_cons_self _ _)
      have h1 : pickG q c y = y := by
        unfold pickG
        rw [if_pos hq, if_neg (not_lt.mpr (le_of_lt hcy))]
      rw [List.foldl_cons, h1, List.foldl_cons, pickStep_none, if_pos hq,
        foldl_pickStep_some]
    · have h1 : pickG q c y = c := pickG_neg q c y hq
      rw [List.foldl_cons, h1, List.foldl_cons, pickStep_none, if_neg hq]
      exact ih (fun z hz => hall z (List.mem_cons_of_mem _ hz))

theorem foldl_pickG_comm (q : Comparison → Bool) (c : Comparison) :
    ∀ (l : List Comparison), (∀ y ∈ l, c.rating < y.rating) →
      ∀ a, l.foldl (pickG q) (pickG q a c) = pickG q (l.foldl (pickG q) a) c := by
  intro l
  induction l with
  | nil =>
    intro _ a
    rfl
  | cons y ys ih =>
    intro hall a
    have hcy : c.rating < y.rating := hall y (List.mem_cons_self _ _)
    have hall2 : ∀ z ∈ ys, c.rating < z.rating :=
      fun z hz => hall z (List.mem_cons_of_mem _ hz)
    by_cases hq : q y
    · have key : pickG q (pickG q a c) y = pickG q a y := by
        by_cases hqc : q c
        · by_cases hca : c.rating < a.rating
          · rw [pickG_absorb q a c hca]
          · have hac : a.rating ≤ c.rating := not_lt.mp hca
            have hc : pickG q a c = c := by
              unfold pickG
              rw [if_pos hqc, if_neg hca]
            rw [hc]
            have h1 : pickG q c y = y := by
              unfold pickG
              rw [if_pos hq, if_neg (not_lt.mpr (le_of_lt hcy))]
            have h2 : pickG q a y = y := by
              unfold pickG
              rw [if_pos hq,
                if_neg (not_lt.mpr (le_of_lt (lt_of_le_of_lt hac hcy)))]
            rw [h1, h2]
        · rw [pickG_neg q a c hqc]
      have key2 : pickG q (pickG q a y) c = pickG q a y :=
        pickG_absorb q _ c (lt_of_lt_of_le hcy (le_pickG_rating q a y hq))
      calc (ys.foldl (pickG q) (pickG q (pickG q a c) y))
          = ys.foldl (pickG q) (pickG q a y) := by rw [key]
        _ = ys.foldl (pickG q) (pickG q (pickG q a y) c) := by rw [key2]
        _ = pickG q (ys.foldl (pickG q) (pickG q a y)) c := ih hall2 (pickG q a y)
    · have h0 : pickG q (pickG q a c) y = pickG q a c := pickG_neg q _ y hq
      have h0a : pickG q a y = a := pickG_neg q a y hq
      rw [List.foldl_cons, List.foldl_cons, h0, h0a]
      exact ih hall2 a

theorem mem_insertAsc (c : Comparison) (l : List Comparison) (y : Comparison) :
    y ∈ insertAsc c l ↔ y = c ∨ y ∈ l := by
  induction l with
  | nil => simp [insertAsc]
  | cons x xs ih =>
    simp only [insertAsc]
    split_ifs with h
    · simp [List.mem_cons]
    · simp [List.mem_cons, ih]
      tauto

theorem insertAsc_sorted (c : Comparison) (l : List Comparison)
    (h : ratingSorted l) : ratingSorted (insertAsc c l) := by
  induction l with
  | nil => simp [insertAsc, ratingSorted]
  | cons x xs ih =>
    rcases List.pairwise_cons.mp h with ⟨hx, hxs⟩
    unfold ratingSorted
    simp only [insertAsc]
    split_ifs with hcx
    · refine List.pairwise_cons.mpr ⟨?_, h⟩
      intro y hy
      rcases List.mem_cons.mp hy with rfl | hy2
      · exact le_of_lt hcx
      · exact le_trans (le_of_lt hcx) (hx y hy2)
    · refine List.pairwise_cons.mpr ⟨?_, ih hxs⟩
      intro y hy
      rcases (mem_insertAsc c xs y).mp hy with rfl | hy2
      · exact not_lt.mp hcx
      · exact hx y hy2

theorem key_insert_G (q : Comparison → Bool) (c : Comparison) :
    ∀ (t : List Comparison), ratingSorted t → ∀ a,
      (insertAsc c t).foldl (pickG q) a = pickG q (t.foldl (pickG q) a) c := by
  intro t
  induction t with
  | nil =>
    intro _ a
    rfl
  | cons z t2 ih =>
    intro hs a
    rcases List.pairwise_cons.mp hs with ⟨hz, ht2⟩
    simp only [insertAsc]
    split_ifs with hcz
    · have hall : ∀ y ∈ z :: t2, c.rating < y.rating := by
        intro y hy
        rcases List.mem_cons.mp hy with rfl | hy2
        · exact hcz
        · exact lt_of_lt_of_le hcz (hz y hy2)
      rw [List.foldl_cons]
      exact foldl_pickG_comm q c (z :: t2) hall a
    · rw [List.foldl_cons, List.foldl_cons]
      exact ih ht2 (pickG q a z)

theorem key_insert (q : Comparison → Bool) (c : Comparison) :
    ∀ (t : List Comparison), ratingSorted t →
      (insertAsc c t).foldl (pickStep q) none =
        pickStep q (t.foldl (pickStep q) none) c := by
  intro t
  induction t with
  | nil =>
    intro _
    rfl
  | cons x xs ih =>
    intro hs
    rcases List.pairwise_cons.mp hs with ⟨hx, hxs⟩
    simp only [insertAsc]
    split_ifs with hcx
    · by_cases hqc : q c
      · rw [show (c :: x :: xs).foldl (pickStep q) none
            = (x :: xs).foldl (pickStep q) (some c) from by
              rw [List.foldl_cons, pickStep_none, if_pos hqc]]
        rw [foldl_pickStep_some]
        have hall : ∀ y ∈ x :: xs, c.rating < y.rating := by
          intro y hy
          rcases List.mem_cons.mp hy with rfl | hy2
          · exact hcx
          · exact lt_of_lt_of_le hcx (hx y hy2)
        rw [foldl_pickG_all_lt q c (x :: xs) hall]
        cases hF : (x :: xs).foldl (pickStep q) none with
        | none => rw [pickStep_none, if_pos hqc]
        | some p =>
          have hp : p ∈ x :: xs := by
            rcases foldl_pickStep_mem q (x :: xs) none p hF with hm | ho
            · exact hm
            · exact absurd ho (by simp)
          rw [pickStep_some, pickG_absorb q p c (hall p hp)]
      · rw [show (c :: x :: xs).foldl (pickStep q) none
            = (x :: xs).foldl (pickStep q) none from by
              rw [List.foldl_cons, pickStep_none, if_neg hqc]]
        cases hF : (x :: xs).foldl (pickStep q) none with
        | none => rw [pickStep_none, if_neg hqc]
        | some p => rw [pickStep_some, pickG_neg q p c hqc]
    · by_cases hqx : q x
      · rw [show (x :: insertAsc c xs).foldl (pickStep q) none
            = (insertAsc c xs).foldl (pickStep q) (some x) from by
              rw [List.foldl_cons, pickStep_none, if_pos hqx]]
        rw [show (x :: xs).foldl (pickStep q) none
            = xs.foldl (pickStep q) (some x) from by
              rw [List.foldl_cons, pickStep_none, if_pos hqx]]
        rw [foldl_pickStep_some, foldl_pickStep_some, pickStep_some,
          key_insert_G q c xs hxs x]
      · rw [show (x :: insertAsc c xs).foldl (pickStep q) none
            = (insertAsc c xs).foldl (pickStep q) none from by
              rw [List.foldl_cons, pickStep_none, if_neg hqx]]
        rw [show (x :: xs).foldl (pickStep q) none
            = xs.foldl (pickStep q) none from by
              rw [List.foldl_cons, pickStep_none, if_neg hqx]]
        exact ih hxs

theorem sort_fold_eq (q : Comparison → Bool) :
    ∀ (l acc : List Comparison), ratingSorted acc →
      (l.foldl (fun a c => insertAsc c a) acc).foldl (pickStep q) none =
        l.foldl (pickStep q) (acc.foldl (pickStep q) none) := by
  intro l
  induction l with
  | nil =>
    intro acc _
    rfl
  | cons c l2 ih =>
    intro acc hacc
    rw [List.foldl_cons, List.foldl_cons,
      ih (insertAsc c acc) (insertAsc_sorted c acc hacc), key_insert q c acc hacc]

theorem filter_foldl_pickHigher (q : Comparison → Bool) :
    ∀ (l : List Comparison) (a : Comparison),
      (l.filter q).foldl pickHigher a = l.foldl (pickG q) a := by
  intro l
  induction l with
  | nil =>
    intro a
    rfl
  | cons y ys ih =>
    intro a
    by_cases hq : q y
    · rw [List.filter_cons, if_pos hq, List.foldl_cons, List.foldl_cons,
        show pickHigher a y = pickG q a y from by simp [pickG, pickHigher, hq]]
      exact ih (pickG q a y)
    · rw [List.filter_cons, if_neg hq, List.foldl_cons,
        show pickG q a y = a from pickG_neg q a y hq]
      exact ih a

theorem selOf_filter (q : Comparison → Bool) :
    ∀ (l : List Comparison),
      (match l.filter q with
        | [] => none
        | x :: xs => some (xs.foldl pickHigher x)) =
        l.foldl (pickStep q) none := by
  intro l
  induction l with
  | nil => rfl
  | cons x xs ih =>
    by_cases hq : q x
    · rw [List.filter_cons, if_pos hq]
      show some ((xs.filter q).foldl pickHigher x) = _
      rw [List.foldl_cons, pickStep_none, if_pos hq, foldl_pickStep_some,
        filter_foldl_pickHigher]
    · rw [List.filter_cons, if_neg hq, ih, List.foldl_cons,
        pickStep_none, if_neg hq]

theorem selectMatch_eq_spec (rate : String → String → ℚ) (a : String)
    (su : List String) :
    selectMatch rate a su = specSelectLastTie rate a su := by
  calc selectMatch rate a su
      = (sortByRating (ratedCandidates rate a su)).foldl
          (pickStep (qualifies a)) none :=
        selOf_filter (qualifies a) (sortByRating (ratedCandidates rate a su))
    _ = (ratedCandidates rate a su).foldl (pickStep (qualifies a)) none := by
        have h := sort_fold_eq (qualifies a) (ratedCandidates rate a su) []
          (by simp [ratingSorted])
        simpa using h
    _ = specSelectLastTie rate a su := by
        unfold specSelectLastTie
        exact foldl_fun_ext (pickStep (qualifies a)) (lastTieStep a)
          (fun o c => by cases o <;> rfl) (ratedCandidates rate a su) none

theorem foldl_pickStep_mono (q : Comparison → Bool) :
    ∀ (l : List Comparison) (e c : Comparison),
      l.foldl (pickStep q) (some e) = some c → e.rating ≤ c.rating := by
  intro l
  induction l with
  | nil =>
    intro e c h
    injection h with h1
    exact h1 ▸ le_refl _
  | cons y ys ih =>
    intro e c h
    rw [List.foldl_cons, pickStep_some] at h
    exact le_trans (pickG_rating_ge q e y) (ih (pickG q e y) c h)

theorem foldl_pickStep_qual (q : Comparison → Bool) :
    ∀ (l : List Comparison) (o : Option Comparison) (c : Comparison),
      l.foldl (pickStep q) o = some c → o = some c ∨ q c = true := by
  intro l
  induction l with
  | nil =>
    intro o c h
    exact Or.inl h
  | cons y ys ih =>
    intro o c h
    rw [List.foldl_cons] at h
    rcases ih _ c h with hstep | hq
    · cases o with
      | none =>
        by_cases hqy : q y
        · simp only [pickStep] at hstep
          rw [if_pos hqy] at hstep
          injection hstep with h1
          exact Or.inr (h1 ▸ hqy)
        · simp only [pickStep] at hstep
          rw [if_neg hqy] at hstep
          exact Option.noConfusion hstep
      | some p =>
        by_cases hqy : q y
        · simp only [pickStep] at hstep
          rw [if_pos hqy] at hstep
          split_ifs at hstep
          all_goals first
            | exact Or.inl hstep
            | (injection hstep with h1
               exact Or.inr (h1 ▸ hqy))
        · simp only [pickStep] at hstep
          rw [if_neg hqy] at hstep
          exact Or.inl hstep
    · exact Or.inr hq

theorem foldl_pickStep_max (q : Comparison → Bool) :
    ∀ (l : List Comparison) (o : Option Comparison) (c : Comparison),
      l.foldl (pickStep q) o = some c →
        ∀ d ∈ l, q d = true → d.rating ≤ c.rating := by
  intro l
  induction l with
  | nil =>
    intro o c _ d hd
    exact absurd hd (List.not_mem_nil d)
  | cons y ys ih =>
    intro o c h d hd hqd
    rw [List.foldl_cons] at h
    rcases List.mem_cons.mp hd with rfl | hd2
    · -- the head: pickStep o d = some e with d.rating ≤ e.rating
      have hstep : ∃ e, pickStep q o d = some e ∧ d.rating ≤ e.rating := by
        cases o with
        | none =>
          refine ⟨d, ?_, le_refl _⟩
          simp [pickStep, hqd]
        | some p =>
          simp only [pickStep]
          rw [if_pos hqd]
          split_ifs with h2
          · exact ⟨p, rfl, le_of_lt h2⟩
          · exact ⟨d, rfl, le_refl _⟩
      obtain ⟨e, he, hde⟩ := hstep
      rw [he] at h
      exact le_trans hde (foldl_pickStep_mono q ys e c h)
    · exact ih _ c h d hd2 hqd

theorem foldl_bestMatched_spec :
    ∀ (xs : List MatchedResult) (x : MatchedResult),
      (xs.foldl (fun p c => if c.best.rating < p.best.rating then p else c) x) ∈ x :: xs ∧
      x.best.rating ≤
        (xs.foldl (fun p c => if c.best.rating < p.best.rating then p else c) x).best.rating ∧
      ∀ m ∈ xs, m.best.rating ≤
        (xs.foldl (fun p c => if c.best.rating < p.best.rating then p else c) x).best.rating := by
  intro xs
  induction xs with
  | nil =>
    intro x
    refine ⟨List.mem_cons_self _ _, le_refl _, ?_⟩
    intro m hm
    exact absurd hm (List.not_mem_nil m)
  | cons y ys ih =>
    intro x
    obtain ⟨h1, h2, h3⟩ := ih (if y.best.rating < x.best.rating then x else y)
    have hxz : x.best.rating ≤
        (if y.best.rating < x.best.rating then x else y).best.rating := by
      split_ifs with h
      · exact le_refl _
      · exact not_lt.mp h
    have hyz : y.best.rating ≤
        (if y.best.rating < x.best.rating then x else y).best.rating := by
      split_ifs with h
      · exact le_of_lt h
      · exact le_refl _
    simp only [List.foldl_cons]
    refine ⟨?_, le_trans hxz h2, ?_⟩
    · rcases List.mem_cons.mp h1 with hz | hmem
      · rw [hz]
        split_ifs
        · exact List.mem_cons_self _ _
        · exact List.mem_cons_of_mem _ (List.mem_cons_self _ _)
      · exact List.mem_cons_of_mem _ (List.mem_cons_of_mem _ hmem)
    · intro m hm
      rcases List.mem_cons.mp hm with rfl | hm2
      · exact le_trans hyz h2
      · exact h3 m hm2

theorem reduceBestMatched_spec (l : List MatchedResult) (b : MatchedResult)
    (h : reduceBestMatched l = .ok b) :
    b ∈ l ∧ ∀ m ∈ l, m.best.rating ≤ b.best.rating := by
  cases l with
  | nil => simp [reduceBestMatched] at h
  | cons x xs =>
    have hb : xs.foldl (fun p c => if c.best.rating < p.best.rating then p else c) x = b := by
      have heq : reduceBestMatched (x :: xs) =
          .ok (xs.foldl (fun p c => if c.best.rating < p.best.rating then p else c) x) := rfl
      rw [heq] at h
      injection h
    obtain ⟨h1, h2, h3⟩ := foldl_bestMatched_spec xs x
    rw [hb] at h1 h2 h3
    refine ⟨h1, ?_⟩
    intro m hm
    rcases List.mem_cons.mp hm with rfl | hm2
    · exact h2
    · exact h3 m hm2

theorem extractZpids_invoked_sub (su : Bool) (q : String → Bool) :
    ∀ (rs : List ResultRecord) (st : RunState) (z : String),
      z ∈ (extractZpidsFromResults su q st rs).invoked → ∃ r ∈ rs, z = r.zpid := by
  intro rs
  induction rs with
  | nil =>
    intro st z hz
    exact absurd hz (List.not_mem_nil z)
  | cons r rest ih =>
    intro st z hz
    by_cases hr : r.zpid = ""
    · rw [show extractZpidsFromResults su q st (r :: rest)
          = extractZpidsFromResults su q st rest from by
            simp [extractZpidsFromResults, hr]] at hz
      obtain ⟨r2, hr2, hz2⟩ := ih st z hz
      exact ⟨r2, List.mem_cons_of_mem _ hr2, hz2⟩
    · have hinv : (extractZpidsFromResults su q st (r :: rest)).invoked
          = [r.zpid] ∨
          (extractZpidsFromResults su q st (r :: rest)).invoked
          = r.zpid ::
            (extractZpidsFromResults su q
              (processZpid st su q r.zpid r.detailUrl).state rest).invoked := by
        simp only [extractZpidsFromResults]
        rw [if_pos hr]
        split_ifs
        all_goals first | exact Or.inl rfl | exact Or.inr rfl
      rcases hinv with h | h
      · rw [h] at hz
        exact ⟨r, List.mem_cons_self _ _, List.mem_singleton.mp hz⟩
      · rw [h] at hz
        rcases List.mem_cons.mp hz with rfl | hz2
        · exact ⟨r, List.mem_cons_self _ _, rfl⟩
        · obtain ⟨r2, hr2, hz2b⟩ := ih _ z hz2
          exact ⟨r2, List.mem_cons_of_mem _ hr2, hz2b⟩

theorem qsLoop_invoked_sub (su : Bool) (q : String → Bool) (mzf cp thr rl pl : Nat)
    (ml sc : Option Nat) (ext : List ResultRecord) (tc : Nat) :
    ∀ (entries : List QueryStateEntry) (st : RunState) (z : String),
      z ∈ (qsLoop su q mzf cp thr rl pl ml sc ext tc entries st).invoked →
        ∃ r ∈ ext, z = r.zpid := by
  intro entries
  induction entries with
  | nil =>
    intro st z hz
    exact absurd hz (List.not_mem_nil z)
  | cons e rest ih =>
    intro st z hz
    by_cases hstop : mzf ≤ st.zpids.length
    · rw [show qsLoop su q mzf cp thr rl pl ml sc ext tc (e :: rest) st
          = ⟨st, [], [], [], []⟩ from by simp [qsLoop, hstop]] at hz
      exact absurd hz (List.not_mem_nil z)
    · have hinv : (qsLoop su q mzf cp thr rl pl ml sc ext tc (e :: rest) st).invoked
          = (extractZpidsFromResults su q st ext).invoked ++
            (qsLoop su q mzf cp thr rl pl ml sc ext tc rest
              (extractZpidsFromResults su q st ext).state).invoked := by
        simp only [qsLoop]
        rw [if_neg hstop]
      rw [hinv] at hz
      rcases List.mem_append.mp hz with h | h
      · exact extractZpids_invoked_sub su q ext st z h
      · exact ih _ z h

/-! ## Claim C1 — pagination planner page numbers -/

/-- Claim C1 counterexample.  The claim asserts
`pagesCount = min(ceil(totalCount / 40) + 1, pagesLimit)` with jobs for
every page `2 .. pagesCount`; the source computes
`totalCount / 40 + 1` in floating point and the integer loop variable
runs only while `i <= pagesCount`, which truncates.  At
`totalCount = 50`, `pagesLimit = 20` (store below the observed
maximum) the source enqueues only page 2 while the claim demands pages
2 and 3. -/
theorem pagination_pages_claim_counterexample :
    claimedPaginationPages 20 50 = [2, 3] ∧
    2 ∈ tryEnqueuePaginationPages 20 0 1 50 ∧
    3 ∉ tryEnqueuePaginationPages 20 0 1 50 := by
  refine ⟨by decide, ?_, ?_⟩
  · rw [mem_tryEnqueuePaginationPages]
    decide
  · rw [mem_tryEnqueuePaginationPages]
    decide

/-- Claim C1, amended.  When `totalCount > 0` and the store size is
still below the observed maximum (`zpids.size < maxZpidsFound`, the
other half of the guard), the planner enqueues exactly one follow-up
job for each page number `2 .. min(floor(totalCount / 40) + 1,
pagesLimit)` and none for page 1. -/
theorem pagination_pages_amended (pagesLimit zpidsSize maxZpidsFound totalCount : Nat)
    (h1 : 0 < totalCount) (h2 : zpidsSize < maxZpidsFound) :
    (∀ i : Nat,
      i ∈ tryEnqueuePaginationPages pagesLimit zpidsSize maxZpidsFound totalCount ↔
        2 ≤ i ∧ i ≤ min (totalCount / 40 + 1) pagesLimit) ∧
    (tryEnqueuePaginationPages pagesLimit zpidsSize maxZpidsFound totalCount).Nodup := by
  constructor
  · intro i
    rw [mem_tryEnqueuePaginationPages]
    simp [h1, h2]
  · unfold tryEnqueuePaginationPages
    rw [if_pos ⟨h1, h2⟩]
    exact (List.nodup_range _).filter _

/-- Witness for the amended C1 theorem at the claim instance
`totalCount = 120`, `pagesLimit = 20`: pages 2 and 4 are enqueued,
pages 1 and 5 are not. -/
theorem pagination_pages_amended_witness :
    2 ∈ tryEnqueuePaginationPages 20 0 1 120 ∧
    4 ∈ tryEnqueuePaginationPages 20 0 1 120 ∧
    1 ∉ tryEnqueuePaginationPages 20 0 1 120 ∧
    5 ∉ tryEnqueuePaginationPages 20 0 1 120 := by
  have h := pagination_pages_amended 20 0 1 120 (by decide) (by decide)
  refine ⟨(h.1 2).mpr (by decide), (h.1 4).mpr (by decide), ?_, ?_⟩
  · intro hc
    exact absurd ((h.1 1).mp hc) (by decide)
  · intro hc
    exact absurd ((h.1 5).mp hc) (by decide)

/-! ## Claim C6 — extraction attempt on an unusable session -/

/-- Claim C6 counterexample.  With a valid unseen zpid and an unusable
session, the thrown error is swallowed by the catch block of
`processZpid`, which enqueues a fallback detail job, sets the batch
error flag and marks the session bad — the claim asserts none of these
happen. -/
theorem session_unusable_claim_counterexample :
    (processZpid ⟨[], 0⟩ false (fun _ => true) "12345" "").fallback.isSome = true ∧
    (processZpid ⟨[], 0⟩ false (fun _ => true) "12345" "").anyErrorsSet = true ∧
    (processZpid ⟨[], 0⟩ false (fun _ => true) "12345" "").markedBad = true := by
  decide

/-- Claim C6, amended.  On a valid, unseen zpid with an unusable
session, `processZpid` does not query, does not forward output, and
does not propagate the error; instead the generic catch branch runs:
a fallback detail job keyed by the zpid is enqueued, `anyErrors` is
set, `session.markBad()` runs, the pacing delay applies, and the dedup
store is unchanged. -/
theorem session_unusable_amended (st : RunState) (queryOk : String → Bool)
    (zpid detailUrl : String) (h1 : st.isOverItems = false) (h2 : zpid ≠ "")
    (h3 : isNumericZpid zpid = true) (h4 : zpid ∉ st.zpids) :
    processZpid st false queryOk zpid detailUrl =
      ⟨st, false, false,
        some ⟨if detailUrl ≠ "" then detailUrl
              else "https://www.zillow.com/homedetails/" ++ zpid ++ "_zpid/",
              zpid, zpid⟩,
        true, true, true⟩ := by
  simp [processZpid, h1, h2, h3, h4]

/-- Witness for the amended C6 theorem. -/
theorem session_unusable_amended_witness :
    processZpid ⟨["999"], 5⟩ false (fun _ => true) "12345" "" =
      ⟨⟨["999"], 5⟩, false, false,
        some ⟨"https://www.zillow.com/homedetails/12345_zpid/", "12345", "12345"⟩,
        true, true, true⟩ := by
  have h := session_unusable_amended ⟨["999"], 5⟩ (fun _ => true) "12345" ""
    (by decide) (by decide) (by decide) (by decide)
  simpa using h

/-! ## Claim C7 — `maxZpidsFound` bookkeeping -/

/-- Claim C7 counterexample.  A handler processing a pagination
follow-up page (`pageNumber = 2`) that came through map splitting
(`splitCount = 3`) still updates its `maxZpidsFound` from 0 to the
summed total count — the claim asserts only un-split first pages do. -/
theorem maxZpidsFound_claim_counterexample :
    (extractQueryStatesForCurrentPage (mkPageHandler ⟨0⟩) (some 2) (some 3)
      [⟨100⟩]).1.maxZpidsFound = 100 ∧
    (extractQueryStatesForCurrentPage (mkPageHandler ⟨0⟩) (some 2) (some 3)
      [⟨100⟩]).1.maxZpidsFound ≠ (mkPageHandler ⟨0⟩).maxZpidsFound := by
  decide

/-- Claim C7, amended.  `maxZpidsFound` is a per-`PageHandler` copy of
the shared value taken at construction time (the constructor rebuilds
`this.globalContext` as a fresh object, so later updates do not reach
the shared context or other handlers); it is updated to
`max(sum of per-category totalCounts, old value)` on every extraction
pass, regardless of page number or split level, and never decreases
within a handler. -/
theorem maxZpidsFound_amended (g : GlobalCtx) (h : HandlerCtx)
    (p s p2 s2 : Option Nat) (states : List CategoryExtract) :
    (mkPageHandler g).maxZpidsFound = g.maxZpidsFound ∧
    (extractQueryStatesForCurrentPage h p s states).1.maxZpidsFound =
      max (states.foldl (fun out c => out + c.totalCount) 0) h.maxZpidsFound ∧
    h.maxZpidsFound ≤ (extractQueryStatesForCurrentPage h p s states).1.maxZpidsFound ∧
    extractQueryStatesForCurrentPage h p s states =
      extractQueryStatesForCurrentPage h p2 s2 states := by
  refine ⟨rfl, rfl, ?_, rfl⟩
  simp [extractQueryStatesForCurrentPage]

/-! ## Claim C8 — item-cap enforcement -/

/-- Claim C8, confirmed.  Once the dedup store has reached a positive
`maxItems`, `processZpid` issues no query and leaves the store
unchanged, a whole batch issues no query in any iteration, and no call
ever shrinks the store, so the condition is permanent. -/
theorem cap_enforcement (st : RunState) (sessionUsable : Bool)
    (queryOk : String → Bool) (zpid detailUrl : String)
    (results : List ResultRecord)
    (hcap : 0 < st.maxItems) (hfull : st.maxItems ≤ st.zpids.length) :
    (processZpid st sessionUsable queryOk zpid detailUrl).queried = false ∧
    (processZpid st sessionUsable queryOk zpid detailUrl).state = st ∧
    (extractZpidsFromResults sessionUsable queryOk st results).queriedZpids = [] ∧
    (∀ (st₂ : RunState) (z d : String),
      st₂.zpids.length ≤ ((processZpid st₂ sessionUsable queryOk z d).state).zpids.length) := by
  have hover : st.isOverItems = true := (isOverItems_iff st).mpr ⟨hcap, hfull⟩
  refine ⟨?_, ?_, batch_queried_nil _ _ _ hover results, ?_⟩
  · simp [processZpid, hover]
  · simp [processZpid, hover]
  · intro st₂ z d
    unfold processZpid
    split_ifs <;> simp [insertZpid_length_le]

/-- Witness for the C8 theorem: a store holding 2 of 2 allowed items
issues no query for a fresh zpid, alone or in a batch. -/
theorem cap_enforcement_witness :
    (processZpid ⟨["1", "2"], 2⟩ true (fun _ => true) "333" "").queried = false ∧
    (extractZpidsFromResults true (fun _ => true) ⟨["1", "2"], 2⟩
      [⟨"333", "a", "u"⟩]).queriedZpids = [] := by
  have h := cap_enforcement ⟨["1", "2"], 2⟩ true (fun _ => true) "333" ""
    [⟨"333", "a", "u"⟩] (by decide) (by decide)
  exact ⟨h.1, h.2.2.1⟩

/-! ## Claim C9 — map-split trigger and level bound -/

/-- Claim C9 counterexample.  The claim states splits are enqueued if
and only if `totalCount ≥ splitThreshold` and the split level is below
`maxLevel`; but `_enqueueMapSplits` also breaks out immediately when
the run-item cap is reached, so with `isOverItems()` true nothing is
enqueued although the claimed trigger holds (600 ≥ 500, level 0 < 5). -/
theorem map_split_claim_counterexample :
    (500 ≤ 600 ∧ (0 : Nat) < 5) ∧
    tryEnqueueMapSplits true 500 500 none none qsFix 600 = [] := by
  decide

/-- Claim C9, amended.  Splits are enqueued iff `totalCount` reaches
the threshold, the current split level is strictly below `maxLevel`
(default 5) and the run-item cap has not been reached; every enqueued
job carries split level `parent + 1`; at or above `maxLevel` nothing
is enqueued and no error is raised, and every enqueued job's level is
bounded by `maxLevel`. -/
theorem map_split_amended (overItems : Bool) (thrIn rl : Nat) (ml sc : Option Nat)
    (qs : MapQueryState) (tc : Nat) :
    (tryEnqueueMapSplits overItems thrIn rl ml sc qs tc ≠ [] ↔
      ((if thrIn = 0 then rl else thrIn) ≤ tc ∧ sc.getD 0 < ml.getD 5 ∧
        overItems = false)) ∧
    (∀ j ∈ tryEnqueueMapSplits overItems thrIn rl ml sc qs tc,
      j.splitCount = sc.getD 0 + 1 ∧ j.splitCount ≤ ml.getD 5) := by
  simp only [tryEnqueueMapSplits, enqueueMapSplits]
  by_cases h1 : (if thrIn = 0 then rl else thrIn) ≤ tc
  · by_cases h2 : ml.getD 5 ≤ sc.getD 0
    · rw [if_pos h1, if_pos h2]
      refine ⟨⟨fun hne => absurd rfl hne, ?_⟩, fun j hj => absurd hj (List.not_mem_nil j)⟩
      rintro ⟨-, hlt, -⟩
      omega
    · rw [if_pos h1, if_neg h2]
      cases overItems
      · rw [if_neg Bool.false_ne_true]
        refine ⟨⟨fun _ => ⟨h1, by omega, rfl⟩, fun _ => ?_⟩, fun j hj => ?_⟩
        · simp [splitQueryState]
        · simp only [splitQueryState, List.map_cons, List.map_nil, List.mem_cons,
            List.not_mem_nil, or_false] at hj
          rcases hj with h | h | h | h <;> subst h <;>
            exact ⟨rfl, by change sc.getD 0 + 1 ≤ ml.getD 5; omega⟩
      · rw [if_pos rfl]
        refine ⟨⟨fun hne => absurd rfl hne, ?_⟩, fun j hj => absurd hj (List.not_mem_nil j)⟩
        rintro ⟨-, -, hfalse⟩
        exact Bool.noConfusion hfalse
  · rw [if_neg h1]
    refine ⟨⟨fun hne => absurd rfl hne, ?_⟩, fun j hj => absurd hj (List.not_mem_nil j)⟩
    rintro ⟨hthr, -, -⟩
    exact absurd hthr h1

/-- Witness for the amended C9 theorem: with the cap not reached,
`totalCount = 600 ≥ 500` and level 0, splits are enqueued. -/
theorem map_split_amended_witness :
    tryEnqueueMapSplits false 500 500 none none qsFix 600 ≠ [] := by
  exact (map_split_amended false 500 500 none none qsFix 600).1.mpr (by decide)

/-! ## Claim C10 — fallback job identity -/

/-- Claim C10, confirmed.  Whenever `processZpid` enqueues a fallback
detail job, the job's `uniqueKey` is the zpid itself (the
`zpid || detailUrl` expression can only fall back to `detailUrl` when
the zpid is falsy, and falsy zpids fast-skip before any fallback), so
two extraction failures of one zpid always produce jobs with the same
identity and the queue collapses them. -/
theorem fallback_identity_collapses (st₁ st₂ : RunState) (su₁ su₂ : Bool)
    (q₁ q₂ : String → Bool) (zpid d₁ d₂ : String) (f₁ f₂ : FallbackJob)
    (h₁ : (processZpid st₁ su₁ q₁ zpid d₁).fallback = some f₁)
    (h₂ : (processZpid st₂ su₂ q₂ zpid d₂).fallback = some f₂) :
    f₁.uniqueKey = zpid ∧ f₂.uniqueKey = zpid ∧ f₁.uniqueKey = f₂.uniqueKey := by
  have a₁ := processZpid_fallback_key _ _ _ _ _ _ h₁
  have a₂ := processZpid_fallback_key _ _ _ _ _ _ h₂
  exact ⟨a₁, a₂, a₁.trans a₂.symm⟩

/-- Witness for the C10 theorem: a failed query with a detail url and
an unusable-session failure without one produce fallback jobs with the
same `uniqueKey = "123"`. -/
theorem fallback_identity_collapses_witness :
    (FallbackJob.mk "https://detail.example/a" "123" "123").uniqueKey = "123" ∧
    (FallbackJob.mk "https://www.zillow.com/homedetails/123_zpid/" "123"
      "123").uniqueKey = "123" ∧
    (FallbackJob.mk "https://detail.example/a" "123" "123").uniqueKey =
      (FallbackJob.mk "https://www.zillow.com/homedetails/123_zpid/" "123"
        "123").uniqueKey :=
  fallback_identity_collapses ⟨[], 0⟩ ⟨[], 0⟩ true false (fun _ => false)
    (fun _ => true) "123" "https://detail.example/a" ""
    ⟨"https://detail.example/a", "123", "123"⟩
    ⟨"https://www.zillow.com/homedetails/123_zpid/", "123", "123"⟩
    (by decide) (by decide)

/-! ## Claim C4 — address-match qualification and tie-breaking -/

/-- Claim C4 counterexample.  With the result address equal to two
identical target strings (both similarity 1, both sharing the leading
token), the claim demands the candidate encountered FIRST (index 0);
the source reduce `prev.rating > current.rating ? prev : current`
keeps the LATER candidate on a rating tie, so index 1 is selected. -/
theorem address_match_claim_counterexample :
    selectMatch rateEq "100 main st" ["100 main st", "100 main st"] =
      some ⟨"100 main st", 1, 1⟩ ∧
    claimSelectFirstTie rateEq "100 main st" ["100 main st", "100 main st"] =
      some ⟨"100 main st", 1, 0⟩ ∧
    selectMatch rateEq "100 main st" ["100 main st", "100 main st"] ≠
      claimSelectFirstTie rateEq "100 main st" ["100 main st", "100 main st"] := by
  decide

/-- Claim C4, amended.  A candidate qualifies exactly when its score is
at least 0.9 and its leading token equals the result address's leading
token (`qualifies`); among qualifying candidates the maximum-score one
is selected, and when two qualifying candidates have equal maximal
score the one encountered LAST in iteration order is selected
(`specSelectLastTie`); the selected candidate qualifies and its rating
bounds every qualifying candidate's rating; and across all results on
a page the single, globally best-scoring match is kept (the reduced
entry is in the list and its rating is maximal). -/
theorem address_match_amended :
    (∀ (rate : String → String → ℚ) (a : String) (su : List String),
      selectMatch rate a su = specSelectLastTie rate a su) ∧
    (∀ (rate : String → String → ℚ) (a : String) (su : List String) (c : Comparison),
      selectMatch rate a su = some c →
        qualifies a c = true ∧
        ∀ d ∈ ratedCandidates rate a su, qualifies a d = true → d.rating ≤ c.rating) ∧
    (∀ (l : List MatchedResult) (b : MatchedResult),
      reduceBestMatched l = .ok b →
        b ∈ l ∧ ∀ m ∈ l, m.best.rating ≤ b.best.rating) := by
  refine ⟨selectMatch_eq_spec, ?_, reduceBestMatched_spec⟩
  intro rate a su c hsel
  have h2 : specSelectLastTie rate a su
      = (ratedCandidates rate a su).foldl (pickStep (qualifies a)) none := by
    unfold specSelectLastTie
    exact (foldl_fun_ext (pickStep (qualifies a)) (lastTieStep a)
      (fun o c => by cases o <;> rfl) _ _).symm
  have hfold : (ratedCandidates rate a su).foldl (pickStep (qualifies a)) none = some c := by
    rw [← h2, ← selectMatch_eq_spec rate a su, hsel]
  constructor
  · rcases foldl_pickStep_qual (qualifies a) _ none c hfold with h | h
    · exact Option.noConfusion h
    · exact h
  · intro d hd hqd
    exact foldl_pickStep_max (qualifies a) _ none c hfold d hd hqd

/-- Witness for the amended C4 theorem, at the spec's own example
(result address matching exactly one of two targets). -/
theorem address_match_amended_witness :
    selectMatch rateEq "100 main st" ["100 main st", "999 pine rd"] =
      specSelectLastTie rateEq "100 main st" ["100 main st", "999 pine rd"] ∧
    qualifies "100 main st" ⟨"100 main st", 1, 0⟩ = true := by
  refine ⟨address_match_amended.1 rateEq _ _, ?_⟩
  exact (address_match_amended.2.1 rateEq "100 main st"
    ["100 main st", "999 pine rd"] ⟨"100 main st", 1, 0⟩ (by decide)).1

/-! ## Claim C2 — which records reach per-entity extraction -/

/-- Claim C2 counterexample.  A page with two merged result records and
no active cap (maxItems 0, store size 0 far below
maxZpidsFound = 5) runs `processZpid` only on the single best
address-matched record ("111"); the other merged record ("222") is
never processed, although the claim says every merged record is
(subject only to the cap short-circuits). -/
theorem extraction_scope_claim_counterexample :
    "222" ∈ (mergeListResultsMapResults
      [⟨qsFix, [resMain, resOak], [], [], []⟩]).map ResultRecord.zpid ∧
    (processExtractedQueryStates rateEq ⟨[], 0⟩ true (fun _ => true) 5 none 0 500 20
      none none [⟨qsFix, [resMain, resOak], [], [], []⟩] 2
      ["https://z.com/100-main-st"]).invoked = ["111"] ∧
    "222" ∉ (processExtractedQueryStates rateEq ⟨[], 0⟩ true (fun _ => true) 5 none 0 500 20
      none none [⟨qsFix, [resMain, resOak], [], [], []⟩] 2
      ["https://z.com/100-main-st"]).invoked := by
  decide

/-- Claim C2, amended.  Before extraction, `results` is replaced by the
singleton best address-match reduction, so every zpid `processZpid` is
invoked on during the pass is the zpid of that single reduced record —
never the full merged record list. -/
theorem extraction_scope_amended (rate : String → String → ℚ) (st : RunState)
    (su : Bool) (q : String → Bool) (mzf : Nat) (pn : Option Nat)
    (thr rl pl : Nat) (ml sc : Option Nat) (qss : List QueryStateEntry)
    (tc : Nat) (urls : List String) (z : String)
    (hz : z ∈ (processExtractedQueryStates rate st su q mzf pn thr rl pl
      ml sc qss tc urls).invoked) :
    (reduceBestMatched (computeFilteredResults rate
      (mergeListResultsMapResults qss) urls)).map (fun b => b.result.zpid) =
      .ok z := by
  simp only [processExtractedQueryStates] at hz
  cases hred : reduceBestMatched (computeFilteredResults rate
      (mergeListResultsMapResults qss) urls) with
  | error e =>
    rw [hred] at hz
    exact absurd hz (List.not_mem_nil z)
  | ok b =>
    rw [hred] at hz
    simp only [validateQueryStatesResults, List.length_cons, List.length_nil,
      List.map_cons, List.map_nil, Nat.succ_ne_zero, if_false] at hz
    obtain ⟨r, hr, hzr⟩ := qsLoop_invoked_sub su q mzf (pn.getD 1) thr rl pl ml sc
      [b.result] tc qss st z hz
    rcases List.mem_singleton.mp hr with rfl
    rw [Except.map, hzr]

/-- Witness for the amended C2 theorem at the counterexample page:
"111" is invoked, and it is exactly the reduced best match's zpid. -/
theorem extraction_scope_amended_witness :
    (reduceBestMatched (computeFilteredResults rateEq
      (mergeListResultsMapResults [⟨qsFix, [resMain, resOak], [], [], []⟩])
      ["https://z.com/100-main-st"])).map (fun b => b.result.zpid) = .ok "111" :=
  extraction_scope_amended rateEq ⟨[], 0⟩ true (fun _ => true) 5 none 0 500 20
    none none [⟨qsFix, [resMain, resOak], [], [], []⟩] 2
    ["https://z.com/100-main-st"] "111" (by decide)

/-! ## Claim C3 — zero results with positive reported total -/

/-- Claim C3, a code bug.  `_validateQueryStatesResults` itself
implements exactly the claimed behavior (retire and throw on zero
results with a positive total, clean `false` on zero/zero) — but the
caller passes `results.length` as the total count and, before
validation can even run, `filteredResults.reduce` throws the
empty-array `TypeError`.  So with zero merged results the pass fails
with the `TypeError` in BOTH the positive-total and the zero-total
case, and the session is never retired. -/
theorem anomalous_zero_results_bug :
    (processExtractedQueryStates rateEq ⟨[], 0⟩ true (fun _ => true) 5 none 0 500 20
      none none [⟨qsFix, [], [], [], []⟩] 50 []).error =
      some .typeErrorEmptyReduce ∧
    (processExtractedQueryStates rateEq ⟨[], 0⟩ true (fun _ => true) 5 none 0 500 20
      none none [⟨qsFix, [], [], [], []⟩] 50 []).sessionRetired = false ∧
    (processExtractedQueryStates rateEq ⟨[], 0⟩ true (fun _ => true) 5 none 0 500 20
      none none [⟨qsFix, [], [], [], []⟩] 0 []).error =
      some .typeErrorEmptyReduce ∧
    validateQueryStatesResults 0 50 = ⟨true, .error (.noMapResults 50)⟩ ∧
    validateQueryStatesResults 0 0 = ⟨false, .ok (some false)⟩ := by
  exact ⟨by decide, by decide, by decide, rfl, rfl⟩

/-! ## Claim C5 — match selection must not fail the page flow -/

/-- Claim C5, a code bug.  When no result survives address matching,
`filteredResults` is empty and `filteredResults?.reduce(...)` throws
`TypeError: Reduce of empty array with no initial value` — the
optional chaining does not guard the empty-array case, and the later
`r?.baseUrl` access shows the author expected an undefined entry, not
a throw.  The page-handling flow therefore fails instead of
continuing. -/
theorem match_reporting_crash_bug :
    computeFilteredResults rateEq
      (mergeListResultsMapResults [⟨qsFix, [resOak], [], [], []⟩])
      ["https://z.com/100-main-st"] = [] ∧
    (processExtractedQueryStates rateEq ⟨[], 0⟩ true (fun _ => true) 5 none 0 500 20
      none none [⟨qsFix, [resOak], [], [], []⟩] 1
      ["https://z.com/100-main-st"]).error = some .typeErrorEmptyReduce := by
  decide
